import Mathlib

/-!
Shallow embedding of the blob-game core (terrain generation, position
sampling, and the per-tick blob behavior engine) from src/src/app/game.jsx.

Conventions of the embedding:
* `Math.random()` is an injected random source `σ : ℕ → ℚ`, read at an
  explicitly threaded counter; `Math.floor(Math.random() * n)` is `natDraw`.
* JS arrays are lists; the 2D terrain array is a function `Pos → Option
  TerrainKind` (`none` is the JS `null`, i.e. not yet assigned).
* A blob literal `{x, y}` without a `stepsSinceMeal` field is a `Blob` whose
  `stepsSinceMeal` is `none`; `undefined + 1` is `NaN` and `NaN + 1` is `NaN`,
  both modelled by `none` (`Option.map (· + 1)` keeps `none`), and the JS
  comparisons `undefined < 100` / `NaN < 100` are false, modelled by `sLtB`.
* The JS `while` loops are structural recursions on an explicit bound: the
  sampler's own `attempts < 10000` bound, and for the terrain flood fill a
  fuel argument whose sufficiency is proved (`genLoopMeasure`).
-/

namespace BlobGame

inductive TerrainKind where
  | soil
  | sand
  | water
deriving DecidableEq

abbrev Pos := ℤ × ℤ

abbrev Terrain := Pos → Option TerrainKind

def gridSize : ℕ := 100

def maxStepsWithoutFood : ℕ := 100

def initialBlobCount : ℕ := 100

def initialFoodCount : ℕ := 100

/-- Embeds `Math.floor(Math.random() * n)`: the draw `r` scaled and floored. -/
def natDraw (r : ℚ) (n : ℕ) : ℕ := (Int.floor (r * (n : ℚ))).toNat

/-- Success probability of a soil parent, `Math.max(100 - (chain - 1) * 0.5, 0) / 100`. -/
def soilProb (chain : ℕ) : ℚ := max (100 - ((chain : ℚ) - 1) * 0.5) 0 / 100

/-- Success probability of a sand parent, `Math.max(100 - (chain - 1) * 5, 0) / 100`. -/
def sandProb (chain : ℕ) : ℚ := max (100 - ((chain : ℚ) - 1) * 5) 0 / 100

/-- The parent-to-child rule of `generateGrid` (lines 115-137 of game.jsx):
given the parent kind, the parent chain and the drawn random value, yield the
child kind and chain. -/
def transition (t : TerrainKind) (chain : ℕ) (r : ℚ) : TerrainKind × ℕ :=
  match t with
  | TerrainKind.soil =>
      if r < soilProb chain then (TerrainKind.soil, chain + 1) else (TerrainKind.sand, 1)
  | TerrainKind.sand =>
      if r < sandProb chain then (TerrainKind.sand, chain + 1) else (TerrainKind.water, 1)
  | TerrainKind.water => (TerrainKind.water, chain + 1)

/-- A frontier entry `{x, y, type, chain}`. -/
structure FCell where
  x : ℤ
  y : ℤ
  type : TerrainKind
  chain : ℕ
deriving DecidableEq

instance : Inhabited FCell := ⟨⟨0, 0, TerrainKind.soil, 0⟩⟩

/-- The mutable state of `generateGrid`: the grid, the chain grid, the
frontier worklist, the (shuffled in place) `directions` array, and the
position of the next random draw. -/
structure GenState where
  grid : Terrain
  chainGrid : Pos → ℕ
  frontier : List FCell
  dirs : List Pos
  k : ℕ

/-- The `directions` array in its source order. -/
def directions0 : List Pos :=
  [(-1, -1), (0, -1), (1, -1), (-1, 0), (1, 0), (-1, 1), (0, 1), (1, 1)]

/-- The seed cell `(floor(n/2), floor(n/2))`. -/
def centerCell (n : ℕ) : Pos := (((n / 2 : ℕ) : ℤ), ((n / 2 : ℕ) : ℤ))

def initState (n : ℕ) : GenState :=
  { grid := fun q => if q = centerCell n then some TerrainKind.soil else none
    chainGrid := fun q => if q = centerCell n then 1 else 0
    frontier := [⟨(centerCell n).1, (centerCell n).2, TerrainKind.soil, 1⟩]
    dirs := directions0
    k := 0 }

/-- Swap the entries at indices `i` and `j` (the JS destructuring swap);
out-of-range indices leave the list unchanged. -/
def swapL {α : Type} (l : List α) (i j : ℕ) : List α :=
  match l[i]?, l[j]? with
  | some a, some b => (l.set i b).set j a
  | _, _ => l

/-- The in-place Fisher-Yates shuffle of the `directions` array: for `i`
from `length - 1` down to `1`, swap index `i` with a random index `< i + 1`.
Returns the shuffled list and the advanced draw counter. -/
def shuffleAux (σ : ℕ → ℚ) : ℕ → ℕ → List Pos → List Pos × ℕ
  | 0, k, l => (l, k)
  | i + 1, k, l => shuffleAux σ i (k + 1) (swapL l (i + 1) (natDraw (σ k) (i + 2)))

/-- `0 <= x < n` and `0 <= y < n`: the negation of the out-of-bounds test
`nx < 0 || nx >= gridSize || ny < 0 || ny >= gridSize`. -/
def inRange (n : ℕ) (p : Pos) : Prop :=
  0 ≤ p.1 ∧ p.1 < (n : ℤ) ∧ 0 ≤ p.2 ∧ p.2 < (n : ℤ)

instance (n : ℕ) (p : Pos) : Decidable (inRange n p) := by
  unfold inRange; infer_instance

/-- `grid[ny][nx] = newType; chainGrid[ny][nx] = newChain; frontier.push(...)`. -/
def assignCell (st : GenState) (p : Pos) (t : TerrainKind) (c : ℕ) : GenState :=
  { st with
    grid := fun q => if q = p then some t else st.grid q
    chainGrid := fun q => if q = p then c else st.chainGrid q
    frontier := st.frontier ++ [⟨p.1, p.2, t, c⟩] }

/-- One pass of the neighbor-expansion body for a single direction `d`:
skip out-of-bounds or already assigned cells, otherwise assign the cell
computed by `transition` and push it. The draw counter advances only for
soil and sand parents (the water branch calls no `Math.random()`). -/
def expandDir (n : ℕ) (σ : ℕ → ℚ) (cur : FCell) (d : Pos) (st : GenState) : GenState :=
  let q : Pos := (cur.x + d.1, cur.y + d.2)
  if ¬ inRange n q then st
  else if st.grid q ≠ none then st
  else
    let tc := transition cur.type cur.chain (σ st.k)
    let k2 := match cur.type with
      | TerrainKind.water => st.k
      | _ => st.k + 1
    assignCell { st with k := k2 } q tc.1 tc.2

/-- `for (const {dx, dy} of directions) ...` over the shuffled directions. -/
def expandAll (n : ℕ) (σ : ℕ → ℚ) (cur : FCell) : List Pos → GenState → GenState
  | [], st => st
  | d :: ds, st => expandAll n σ cur ds (expandDir n σ cur d st)

/-- One iteration of the `while (frontier.length > 0)` loop: remove a random
frontier entry, shuffle the directions array in place, and expand the
neighbors of the removed entry in the shuffled order. -/
def genStep (n : ℕ) (σ : ℕ → ℚ) (st : GenState) : GenState :=
  let idx := natDraw (σ st.k) st.frontier.length
  let cur := st.frontier.getD idx default
  let sh := shuffleAux σ (st.dirs.length - 1) (st.k + 1) st.dirs
  expandAll n σ cur sh.1
    { st with frontier := st.frontier.eraseIdx idx, dirs := sh.1, k := sh.2 }

/-- The flood-fill loop as a fuel recursion: `none` means the fuel ran out
before the frontier emptied (never happens with the fuel `generateGrid`
passes, see the claim on full coverage). -/
def genLoop (n : ℕ) (σ : ℕ → ℚ) : ℕ → GenState → Option GenState
  | 0, st => if st.frontier = [] then some st else none
  | fuel + 1, st => if st.frontier = [] then some st else genLoop n σ fuel (genStep n σ st)

/-- `generateGrid` for an `n × n` grid over the injected source `σ`. -/
def generateGrid (n : ℕ) (σ : ℕ → ℚ) : Option Terrain :=
  (genLoop n σ (2 * n * n + 1) (initState n)).map GenState.grid

/-- The `n × n` coordinate rectangle as a finite set. -/
def cells (n : ℕ) : Finset Pos :=
  Finset.Icc (0 : ℤ) ((n : ℤ) - 1) ×ˢ Finset.Icc (0 : ℤ) ((n : ℤ) - 1)

/-- Number of in-range cells still `null`. -/
def unassigned (n : ℕ) (st : GenState) : ℕ :=
  ((cells n).filter (fun p => st.grid p = none)).card

/-- Termination measure of the flood fill. -/
def measureG (n : ℕ) (st : GenState) : ℕ :=
  st.frontier.length + 2 * unassigned n st

/-- The contract of the injected random source: every draw lies in `[0, 1)`,
as `Math.random()` guarantees. -/
def Valid01 (σ : ℕ → ℚ) : Prop := ∀ i, 0 ≤ σ i ∧ σ i < 1

/-- Loop invariant of the flood fill: the original eight directions survive
the in-place shuffles; the seed cell stays assigned; and every assigned
in-range cell either still waits on the frontier or has all its in-range
neighbors assigned. -/
def InvGen (n : ℕ) (st : GenState) : Prop :=
  (∀ d ∈ directions0, d ∈ st.dirs) ∧
  st.grid (centerCell n) ≠ none ∧
  ∀ p : Pos, inRange n p → st.grid p ≠ none →
    (∃ c ∈ st.frontier, (c.x, c.y) = p) ∨
    ∀ d ∈ directions0, inRange n (p.1 + d.1, p.2 + d.2) →
      st.grid (p.1 + d.1, p.2 + d.2) ≠ none

/-- One step toward `b` on the integer line (used to build a path of grid
neighbors from any cell back to the seed cell). -/
def stepToward (a b : ℤ) : ℤ :=
  if a < b then a + 1 else if b < a then a - 1 else a

/-- The rejection-sampling loop shared by `generateFood` and `generateBlobs`
(the PositionSampler of the spec): `remaining` is `maxAttempts - attempts`,
`k` the draw counter, `acc` the accepted positions. Returns the accepted
positions and the number of unspent attempts (`0` exactly when the attempt
cap was exhausted). -/
def sampleDistinctPositions (grid : Terrain) (σ : ℕ → ℚ) (count : ℕ) (restrict : TerrainKind) :
    ℕ → ℕ → List Pos → List Pos × ℕ
  | 0, _, acc => (acc, 0)
  | remaining + 1, k, acc =>
    if acc.length < count then
      let x : ℤ := (natDraw (σ k) gridSize : ℕ)
      let y : ℤ := (natDraw (σ (k + 1)) gridSize : ℕ)
      if grid (x, y) = some restrict ∧ (x, y) ∉ acc then
        sampleDistinctPositions grid σ count restrict remaining (k + 2) (acc ++ [(x, y)])
      else
        sampleDistinctPositions grid σ count restrict remaining (k + 2) acc
    else (acc, remaining + 1)

def generateFood (grid : Terrain) (σ : ℕ → ℚ) : List Pos :=
  (sampleDistinctPositions grid σ initialFoodCount TerrainKind.soil 10000 0 []).1

/-- A blob `{x, y, stepsSinceMeal}`. `stepsSinceMeal = none` models a missing
field (JS `undefined`, and the `NaN` that arithmetic on it produces). -/
structure Blob where
  x : ℤ
  y : ℤ
  stepsSinceMeal : Option ℕ
deriving DecidableEq

/-- `generateBlobs` pushes bare `{x, y}` records: the sampled positions with
no `stepsSinceMeal` field. -/
def generateBlobs (grid : Terrain) (σ : ℕ → ℚ) : List Blob :=
  ((sampleDistinctPositions grid σ initialBlobCount TerrainKind.soil 10000 0 []).1).map
    (fun p => ⟨p.1, p.2, none⟩)

structure SimState where
  food : List Pos
  blobs : List Blob
deriving DecidableEq

/-- The `(dx, dy)` enumeration order of the nested neighbor loops
(`dx` outer from -1 to 1, `dy` inner, skipping `(0, 0)`). -/
def movesOrder : List Pos :=
  [(-1, -1), (-1, 0), (-1, 1), (0, -1), (0, 1), (1, -1), (1, 0), (1, 1)]

/-- Step 2 of the per-blob update: the candidate moves that stay in bounds. -/
def neighborMoves (n : ℕ) (x y : ℤ) : List Pos :=
  movesOrder.filter (fun m => decide (inRange n (x + m.1, y + m.2)))

/-- Steps 3 and 4 of the per-blob update: prefer a random food-adjacent move,
else a random candidate move. `getD` returns `(0, 0)` on an out-of-range
index, which a draw in `[0, 1)` never produces on a nonempty list. -/
def moveChoice (n : ℕ) (σ : ℕ → ℚ) (k : ℕ) (food : List Pos) (b : Blob) : Pos :=
  let neighbors := neighborMoves n b.x b.y
  let foodNeighbors :=
    neighbors.filter (fun m => food.any (fun f => decide (f = (b.x + m.1, b.y + m.2))))
  if 0 < foodNeighbors.length then foodNeighbors.getD (natDraw (σ k) foodNeighbors.length) (0, 0)
  else neighbors.getD (natDraw (σ k) neighbors.length) (0, 0)

/-- The whole per-blob body of the tick updater (lines 202-262 of game.jsx),
against the food list as it stands when this blob is processed. Returns the
emitted blob, the remaining food and the advanced draw counter. -/
def processBlob (n : ℕ) (σ : ℕ → ℚ) (k : ℕ) (food : List Pos) (b : Blob) :
    Blob × List Pos × ℕ :=
  match food.findIdx? (fun f => decide (f = (b.x, b.y))) with
  | some i => (⟨b.x, b.y, some 0⟩, food.eraseIdx i, k)
  | none =>
    let mv := moveChoice n σ k food b
    let nx := b.x + mv.1
    let ny := b.y + mv.2
    match food.findIdx? (fun f => decide (f = (nx, ny))) with
    | some j => (⟨nx, ny, some 0⟩, food.eraseIdx j, k + 1)
    | none => (⟨nx, ny, Option.map (fun s => s + 1) b.stepsSinceMeal⟩, food, k + 1)

/-- `prevState.blobs.map(...)` with the shared mutable `newFood` threaded in
blob-sequence order. -/
def tickBlobs (n : ℕ) (σ : ℕ → ℚ) : List Blob → List Pos → ℕ → List Blob × List Pos × ℕ
  | [], food, k => ([], food, k)
  | b :: bs, food, k =>
    let r := processBlob n σ k food b
    let rest := tickBlobs n σ bs r.2.1 r.2.2
    (r.1 :: rest.1, rest.2.1, rest.2.2)

/-- The JS comparison `stepsSinceMeal < m` of the cull filter: false when the
field is `undefined`/`NaN` (modelled by `none`). -/
def sLtB : Option ℕ → ℕ → Bool
  | some v, m => decide (v < m)
  | none, _ => false

/-- One tick of the simulation: the `setSimState` updater. -/
def advance (n : ℕ) (σ : ℕ → ℚ) (st : SimState) : SimState :=
  let r := tickBlobs n σ st.blobs st.food 0
  { food := r.2.1
    blobs := r.1.filter (fun b => sLtB b.stepsSinceMeal maxStepsWithoutFood) }

/-! ## General helper lemmas -/

theorem natDraw_lt {r : ℚ} {m : ℕ} (h0 : 0 ≤ r) (h1 : r < 1) (hm : 0 < m) :
    natDraw r m < m := by
  have hf : Int.floor (r * (m : ℚ)) < (m : ℤ) := by
    rw [Int.floor_lt]
    calc r * (m : ℚ) < 1 * (m : ℚ) := by
          apply mul_lt_mul_of_pos_right h1
          exact_mod_cast hm
      _ = (m : ℚ) := one_mul _
  unfold natDraw
  omega

theorem getD_mem_or_default {α : Type} [Inhabited α] (l : List α) (i : ℕ) (d : α) :
    l.getD i d = d ∨ l.getD i d ∈ l := by
  by_cases h : i < l.length
  · right; rw [List.getD_eq_getElem l d h]; exact List.getElem_mem h
  · left; exact List.getD_eq_default l d (le_of_not_lt h)

/-! ## Per-blob behavior: case analysis of processBlob -/

theorem mem_neighborMoves {n : ℕ} {x y : ℤ} {m : Pos} (h : m ∈ neighborMoves n x y) :
    m.1.natAbs ≤ 1 ∧ m.2.natAbs ≤ 1 ∧ inRange n (x + m.1, y + m.2) := by
  unfold neighborMoves at h
  rw [List.mem_filter] at h
  obtain ⟨hmem, hpred⟩ := h
  refine ⟨?_, ?_, of_decide_eq_true hpred⟩ <;>
  · unfold movesOrder at hmem
    simp only [List.mem_cons, List.not_mem_nil, or_false] at hmem
    rcases hmem with rfl | rfl | rfl | rfl | rfl | rfl | rfl | rfl <;> decide

theorem moveChoice_spec (n : ℕ) (σ : ℕ → ℚ) (k : ℕ) (food : List Pos) (b : Blob) :
    moveChoice n σ k food b = (0, 0) ∨ moveChoice n σ k food b ∈ neighborMoves n b.x b.y := by
  simp only [moveChoice]
  split
  · exact Or.imp_right List.mem_of_mem_filter (getD_mem_or_default _ _ _)
  · exact getD_mem_or_default _ _ _

/-- The three exit points of the per-blob body: eat in place, move and eat
on arrival, or move without eating. -/
theorem processBlob_rec (n : ℕ) (σ : ℕ → ℚ) (k : ℕ) (food : List Pos) (b : Blob) :
    (∃ i, food.findIdx? (fun f => decide (f = (b.x, b.y))) = some i ∧
      processBlob n σ k food b = (⟨b.x, b.y, some 0⟩, food.eraseIdx i, k)) ∨
    ((b.x, b.y) ∉ food ∧
      ∃ mv, (mv = ((0 : ℤ), (0 : ℤ)) ∨ mv ∈ neighborMoves n b.x b.y) ∧
      ((∃ j, food.findIdx? (fun f => decide (f = (b.x + mv.1, b.y + mv.2))) = some j ∧
          processBlob n σ k food b = (⟨b.x + mv.1, b.y + mv.2, some 0⟩, food.eraseIdx j, k + 1)) ∨
        ((b.x + mv.1, b.y + mv.2) ∉ food ∧
          processBlob n σ k food b =
            (⟨b.x + mv.1, b.y + mv.2, Option.map (fun s => s + 1) b.stepsSinceMeal⟩,
              food, k + 1)))) := by
  rcases h1 : food.findIdx? (fun f => decide (f = (b.x, b.y))) with _ | i
  · right
    have hnm : (b.x, b.y) ∉ food := by
      intro hmem
      have := (List.findIdx?_eq_none_iff.mp h1) _ hmem
      simp at this
    refine ⟨hnm, moveChoice n σ k food b, moveChoice_spec n σ k food b, ?_⟩
    rcases h2 : food.findIdx?
        (fun f => decide
          (f = (b.x + (moveChoice n σ k food b).1, b.y + (moveChoice n σ k food b).2))) with _ | j
    · right
      have hnm2 : (b.x + (moveChoice n σ k food b).1, b.y + (moveChoice n σ k food b).2) ∉ food := by
        intro hmem
        have := (List.findIdx?_eq_none_iff.mp h2) _ hmem
        simp at this
      refine ⟨hnm2, ?_⟩
      simp only [processBlob, h1, h2]
    · left
      refine ⟨j, rfl, ?_⟩
      simp only [processBlob, h1, h2]
  · left
    refine ⟨i, rfl, ?_⟩
    simp only [processBlob, h1]

/-- Food never grows during one blob's step, and it shrinks by one exactly
when the emitted blob comes out with `stepsSinceMeal = 0`. -/
theorem processBlob_food (n : ℕ) (σ : ℕ → ℚ) (k : ℕ) (food : List Pos) (b : Blob) :
    (processBlob n σ k food b).2.1.Sublist food ∧
    (processBlob n σ k food b).2.1.length
      + (if (processBlob n σ k food b).1.stepsSinceMeal = some 0 then 1 else 0)
      = food.length := by
  rcases processBlob_rec n σ k food b with
    ⟨i, hi, he⟩ | ⟨_, mv, _, ⟨j, hj, he⟩ | ⟨_, he⟩⟩
  · have hlt : i < food.length := (List.findIdx?_eq_some_iff_findIdx_eq.mp hi).1
    rw [he]
    dsimp only
    refine ⟨List.eraseIdx_sublist food i, ?_⟩
    rw [if_pos rfl, List.length_eraseIdx, if_pos hlt]
    omega
  · have hlt : j < food.length := (List.findIdx?_eq_some_iff_findIdx_eq.mp hj).1
    rw [he]
    dsimp only
    refine ⟨List.eraseIdx_sublist food j, ?_⟩
    rw [if_pos rfl, List.length_eraseIdx, if_pos hlt]
    omega
  · rw [he]
    dsimp only
    refine ⟨List.Sublist.refl food, ?_⟩
    have hne : Option.map (fun s => s + 1) b.stepsSinceMeal ≠ some 0 := by
      cases b.stepsSinceMeal <;> simp
    rw [if_neg hne]
    omega

/-- The emitted blob either just ate (counter reset) or carries the JS
increment of its old counter (`undefined`/`NaN` stays `none`). -/
theorem processBlob_steps (n : ℕ) (σ : ℕ → ℚ) (k : ℕ) (food : List Pos) (b : Blob) :
    (processBlob n σ k food b).1.stepsSinceMeal = some 0 ∨
    (processBlob n σ k food b).1.stepsSinceMeal
      = Option.map (fun s => s + 1) b.stepsSinceMeal := by
  rcases processBlob_rec n σ k food b with
    ⟨i, _, he⟩ | ⟨_, mv, _, ⟨j, _, he⟩ | ⟨_, he⟩⟩ <;> rw [he]
  · exact Or.inl rfl
  · exact Or.inl rfl
  · exact Or.inr rfl

/-! ## Whole-tick lemmas -/

/-- Threading the food list through the blob sequence: the food list only
shrinks, and it shrinks by exactly the number of emitted blobs whose counter
was reset to `some 0`. -/
theorem tickBlobs_food (n : ℕ) (σ : ℕ → ℚ) (bs : List Blob) : ∀ (food : List Pos) (k : ℕ),
    (tickBlobs n σ bs food k).2.1.Sublist food ∧
    (tickBlobs n σ bs food k).2.1.length
      + ((tickBlobs n σ bs food k).1.filter
          (fun b => decide (b.stepsSinceMeal = some 0))).length
      = food.length := by
  induction bs with
  | nil =>
    intro food k
    simp [tickBlobs]
  | cons b bs ih =>
    intro food k
    simp only [tickBlobs]
    obtain ⟨hsub1, hlen1⟩ := processBlob_food n σ k food b
    obtain ⟨hsub2, hlen2⟩ := ih (processBlob n σ k food b).2.1 (processBlob n σ k food b).2.2
    refine ⟨hsub2.trans hsub1, ?_⟩
    rw [List.filter_cons]
    by_cases hb : (processBlob n σ k food b).1.stepsSinceMeal = some 0
    · rw [if_pos hb] at hlen1
      simp only [decide_eq_true hb, if_pos, List.length_cons]
      omega
    · rw [if_neg hb] at hlen1
      simp only [decide_eq_false hb, Bool.false_eq_true, if_false]
      omega

/-- If every input blob has an absent counter, every emitted blob has either
just eaten (`some 0`) or still an absent counter (`none`). -/
theorem tickBlobs_steps_none (n : ℕ) (σ : ℕ → ℚ) (bs : List Blob) : ∀ (food : List Pos) (k : ℕ),
    (∀ b ∈ bs, b.stepsSinceMeal = none) →
    ∀ b' ∈ (tickBlobs n σ bs food k).1,
      b'.stepsSinceMeal = some 0 ∨ b'.stepsSinceMeal = none := by
  induction bs with
  | nil =>
    intro food k _ b' hb'
    simp [tickBlobs] at hb'
  | cons b bs ih =>
    intro food k h b' hb'
    simp only [tickBlobs, List.mem_cons] at hb'
    rcases hb' with rfl | hb'
    · rcases processBlob_steps n σ k food b with h0 | h0
      · exact Or.inl h0
      · right
        rw [h0, h b (List.mem_cons_self b bs)]
        rfl
    · exact ih _ _ (fun x hx => h x (List.mem_cons_of_mem b hx)) b' hb'

theorem generateBlobs_none (grid : Terrain) (σ : ℕ → ℚ) :
    ∀ b ∈ generateBlobs grid σ, b.stepsSinceMeal = none := by
  intro b hb
  simp only [generateBlobs, List.mem_map] at hb
  obtain ⟨p, _, rfl⟩ := hb
  rfl

/-! ## Sampling lemmas -/

/-- Invariants of the rejection-sampling loop: accepted positions sit on
cells of the restricted kind, stay pairwise distinct, never exceed `count`,
and fall short of `count` only when the attempt budget ran to zero. -/
theorem sample_props (grid : Terrain) (σ : ℕ → ℚ) (count : ℕ) (restrict : TerrainKind) :
    ∀ (rem k : ℕ) (acc : List Pos),
      (∀ p ∈ acc, grid p = some restrict) → acc.Nodup → acc.length ≤ count →
      (∀ p ∈ (sampleDistinctPositions grid σ count restrict rem k acc).1,
          grid p = some restrict) ∧
      (sampleDistinctPositions grid σ count restrict rem k acc).1.Nodup ∧
      (sampleDistinctPositions grid σ count restrict rem k acc).1.length ≤ count ∧
      ((sampleDistinctPositions grid σ count restrict rem k acc).1.length = count ∨
        (sampleDistinctPositions grid σ count restrict rem k acc).2 = 0) := by
  intro rem
  induction rem with
  | zero =>
    intro k acc h1 h2 h3
    exact ⟨h1, h2, h3, Or.inr rfl⟩
  | succ m ih =>
    intro k acc h1 h2 h3
    simp only [sampleDistinctPositions]
    split
    · split
      next hcond =>
        refine ih (k + 2) _ ?_ ?_ ?_
        · intro p hp
          rw [List.mem_append] at hp
          rcases hp with hp | hp
          · exact h1 p hp
          · simp only [List.mem_singleton] at hp
            rw [hp]
            exact hcond.1
        · refine List.Nodup.append h2 (List.nodup_singleton _) ?_
          intro a ha hb
          simp only [List.mem_singleton] at hb
          rw [hb] at ha
          exact hcond.2 ha
        · rw [List.length_append, List.length_singleton]
          omega
      next hcond =>
        exact ih (k + 2) acc h1 h2 h3
    · next hlen =>
        exact ⟨h1, h2, h3, Or.inl (le_antisymm h3 (le_of_not_lt hlen))⟩

/-! ## Claim theorems (tick engine and sampling) -/

/-- C8: during a tick, a blob whose current coordinate matches an item of
the food list as it stands when the blob is processed removes that item (the
first matching index, as `findIndex`/`splice` do), is emitted at the same
coordinate with `stepsSinceMeal = 0`, and skips the movement steps (the draw
counter is untouched: no random draw is consumed). -/
theorem C8_eat_in_place (n : ℕ) (σ : ℕ → ℚ) (k : ℕ) (food : List Pos) (b : Blob)
    (h : (b.x, b.y) ∈ food) :
    processBlob n σ k food b =
      (⟨b.x, b.y, some 0⟩,
        food.eraseIdx (List.findIdx (fun f => decide (f = (b.x, b.y))) food), k) := by
  rcases processBlob_rec n σ k food b with ⟨i, hi, he⟩ | ⟨hnm, _⟩
  · obtain ⟨hlt, hfi⟩ := List.findIdx?_eq_some_iff_findIdx_eq.mp hi
    rw [he, hfi]
  · exact absurd h hnm

theorem C8_eat_in_place_witness :
    ((1, 1) : Pos) ∈ [((1, 1) : Pos)] ∧
    processBlob 3 (fun _ => 0) 0 [((1, 1) : Pos)] ⟨1, 1, none⟩ =
      (⟨1, 1, some 0⟩,
        List.eraseIdx [((1, 1) : Pos)]
          (List.findIdx (fun f => decide (f = ((1 : ℤ), (1 : ℤ)))) [((1, 1) : Pos)]), 0) :=
  ⟨by decide, C8_eat_in_place 3 (fun _ => 0) 0 [((1, 1) : Pos)] ⟨1, 1, none⟩ (by decide)⟩

/-- C9: per tick a blob moves by at most one cell in each axis (not at all
when it eats in place), and an in-bounds blob stays in bounds: every
candidate move is one of the eight in-bounds neighbor offsets. -/
theorem C9_movement_bound_and_in_bounds (n : ℕ) (σ : ℕ → ℚ) (k : ℕ) (food : List Pos) (b : Blob)
    (hin : inRange n (b.x, b.y)) :
    ((processBlob n σ k food b).1.x - b.x).natAbs ≤ 1 ∧
    ((processBlob n σ k food b).1.y - b.y).natAbs ≤ 1 ∧
    inRange n ((processBlob n σ k food b).1.x, (processBlob n σ k food b).1.y) ∧
    ((b.x, b.y) ∈ food →
      (processBlob n σ k food b).1.x = b.x ∧ (processBlob n σ k food b).1.y = b.y) := by
  rcases processBlob_rec n σ k food b with ⟨i, hi, he⟩ | ⟨hnm, mv, hmv, hrest⟩
  · rw [he]
    exact ⟨by simp, by simp, hin, fun _ => ⟨rfl, rfl⟩⟩
  · have hb' : (processBlob n σ k food b).1.x = b.x + mv.1 ∧
        (processBlob n σ k food b).1.y = b.y + mv.2 := by
      rcases hrest with ⟨j, hj, he⟩ | ⟨hn2, he⟩ <;> rw [he] <;> exact ⟨rfl, rfl⟩
    obtain ⟨hx, hy⟩ := hb'
    rw [hx, hy]
    have hmv' : mv.1.natAbs ≤ 1 ∧ mv.2.natAbs ≤ 1 ∧ inRange n (b.x + mv.1, b.y + mv.2) := by
      rcases hmv with rfl | hmem
      · exact ⟨by decide, by decide, by simpa using hin⟩
      · exact mem_neighborMoves hmem
    obtain ⟨h1, h2, h3⟩ := hmv'
    exact ⟨by omega, by omega, h3, fun hmem => absurd hmem hnm⟩

theorem C9_movement_bound_and_in_bounds_witness :
    inRange 3 (((1 : ℤ), (1 : ℤ))) ∧
    (((processBlob 3 (fun _ => 0) 0 [((1, 1) : Pos)] ⟨1, 1, some 0⟩).1.x - 1).natAbs ≤ 1 ∧
      ((processBlob 3 (fun _ => 0) 0 [((1, 1) : Pos)] ⟨1, 1, some 0⟩).1.y - 1).natAbs ≤ 1 ∧
      inRange 3 ((processBlob 3 (fun _ => 0) 0 [((1, 1) : Pos)] ⟨1, 1, some 0⟩).1.x,
        (processBlob 3 (fun _ => 0) 0 [((1, 1) : Pos)] ⟨1, 1, some 0⟩).1.y) ∧
      (((1 : ℤ), (1 : ℤ)) ∈ [((1, 1) : Pos)] →
        (processBlob 3 (fun _ => 0) 0 [((1, 1) : Pos)] ⟨1, 1, some 0⟩).1.x = 1 ∧
        (processBlob 3 (fun _ => 0) 0 [((1, 1) : Pos)] ⟨1, 1, some 0⟩).1.y = 1)) :=
  ⟨by decide,
    C9_movement_bound_and_in_bounds 3 (fun _ => 0) 0 [((1, 1) : Pos)] ⟨1, 1, some 0⟩ (by decide)⟩

/-- C4: one tick never adds food (the output food list is a sublist of the
input one, so its length is at most the input length), and the number of
food items removed equals the number of blobs emitted with `stepsSinceMeal`
newly set to `some 0` (a blob that did not eat never comes out with
`some 0`). -/
theorem C4_tick_food_conservation (n : ℕ) (σ : ℕ → ℚ) (st : SimState) :
    (advance n σ st).food.Sublist st.food ∧
    (advance n σ st).food.length ≤ st.food.length ∧
    (advance n σ st).food.length
      + ((advance n σ st).blobs.filter
          (fun b => decide (b.stepsSinceMeal = some 0))).length
      = st.food.length := by
  obtain ⟨hsub, hlen⟩ := tickBlobs_food n σ st.blobs st.food 0
  have hfoodeq : (advance n σ st).food = (tickBlobs n σ st.blobs st.food 0).2.1 := rfl
  have hblobseq : (advance n σ st).blobs
      = (tickBlobs n σ st.blobs st.food 0).1.filter
          (fun b => sLtB b.stepsSinceMeal maxStepsWithoutFood) := rfl
  rw [hfoodeq, hblobseq]
  have hcomm : ((tickBlobs n σ st.blobs st.food 0).1.filter
        (fun b => sLtB b.stepsSinceMeal maxStepsWithoutFood)).filter
        (fun b => decide (b.stepsSinceMeal = some 0))
      = (tickBlobs n σ st.blobs st.food 0).1.filter
          (fun b => decide (b.stepsSinceMeal = some 0)) := by
    rw [List.filter_filter]
    apply List.filter_congr
    intro x _
    rcases hx : x.stepsSinceMeal with _ | v
    · simp [hx]
    · rcases v with _ | w
      · simp [hx, sLtB, maxStepsWithoutFood]
      · simp [hx]
  rw [hcomm]
  exact ⟨hsub, by omega, hlen⟩

/-- C2: starting from the freshly seeded state, every blob that survives the
first call of the tick updater has `stepsSinceMeal = some 0`, i.e. it ate
during that tick: a seeded blob (whose `stepsSinceMeal` field is absent)
that does not eat gets `undefined + 1 = NaN` and fails the cull comparison
`NaN < 100` on that very first tick. -/
theorem C2_survivors_of_first_tick_have_just_eaten (n : ℕ) (grid : Terrain)
    (σf σb σt : ℕ → ℚ) :
    ((advance n σt { food := generateFood grid σf, blobs := generateBlobs grid σb }).blobs.all
      (fun b => decide (b.stepsSinceMeal = some 0))) = true := by
  rw [List.all_eq_true]
  intro b hb
  have hb' : b ∈ (tickBlobs n σt (generateBlobs grid σb) (generateFood grid σf) 0).1.filter
      (fun x => sLtB x.stepsSinceMeal maxStepsWithoutFood) := hb
  rw [List.mem_filter] at hb'
  obtain ⟨hmem, hcull⟩ := hb'
  rcases tickBlobs_steps_none n σt (generateBlobs grid σb) (generateFood grid σf) 0
      (generateBlobs_none grid σb) b hmem with h | h
  · exact decide_eq_true h
  · rw [h] at hcull
    simp [sLtB] at hcull

/-- C3 (exhibit of the code bug): a seeded blob (absent `stepsSinceMeal`)
with no food anywhere is culled on its very first tick, not after 100
non-eating ticks: for every grid size, random source and start position the
output state after one tick holds no blob at all. -/
theorem C3_hungry_seeded_blob_culled_on_first_tick (n : ℕ) (σ : ℕ → ℚ) (x y : ℤ) :
    (advance n σ { food := [], blobs := [⟨x, y, none⟩] }).blobs = [] ∧
    (advance n σ { food := [], blobs := [⟨x, y, none⟩] }).food = [] := by
  constructor <;>
    simp [advance, tickBlobs, processBlob, sLtB]

/-- C10: both seeding functions only return positions whose cell is soil,
with no duplicates inside one call's output, at most the requested count
(100), and a shorter output only when the 10000-attempt cap was run down to
zero (in which case the short list is returned silently, as the total
function shows). -/
theorem C10_seeding_constraints (grid : Terrain) (σf σb : ℕ → ℚ) :
    ((generateFood grid σf).all (fun p => decide (grid p = some TerrainKind.soil))) = true ∧
    (generateFood grid σf).Nodup ∧
    (generateFood grid σf).length ≤ initialFoodCount ∧
    ((generateFood grid σf).length = initialFoodCount ∨
      (sampleDistinctPositions grid σf initialFoodCount TerrainKind.soil 10000 0 []).2 = 0) ∧
    ((generateBlobs grid σb).all
      (fun b => decide (grid (b.x, b.y) = some TerrainKind.soil))) = true ∧
    (generateBlobs grid σb).Nodup ∧
    (generateBlobs grid σb).length ≤ initialBlobCount ∧
    ((generateBlobs grid σb).length = initialBlobCount ∨
      (sampleDistinctPositions grid σb initialBlobCount TerrainKind.soil 10000 0 []).2 = 0) := by
  obtain ⟨hf1, hf2, hf3, hf4⟩ :=
    sample_props grid σf initialFoodCount TerrainKind.soil 10000 0 []
      (by intro p hp; simp at hp) List.nodup_nil (by simp)
  obtain ⟨hb1, hb2, hb3, hb4⟩ :=
    sample_props grid σb initialBlobCount TerrainKind.soil 10000 0 []
      (by intro p hp; simp at hp) List.nodup_nil (by simp)
  have hinj : Function.Injective (fun p : Pos => (⟨p.1, p.2, none⟩ : Blob)) := by
    intro a b h
    simp only [Blob.mk.injEq] at h
    exact Prod.ext h.1 h.2.1
  refine ⟨?_, hf2, hf3, hf4, ?_, ?_, ?_, ?_⟩
  · rw [List.all_eq_true]
    intro p hp
    exact decide_eq_true (hf1 p hp)
  · rw [List.all_eq_true]
    intro b hb
    simp only [generateBlobs, List.mem_map] at hb
    obtain ⟨p, hp, rfl⟩ := hb
    exact decide_eq_true (hb1 p hp)
  · exact List.Nodup.map hinj hb2
  · simpa [generateBlobs] using hb3
  · simpa [generateBlobs] using hb4

/-- C1 (exhibit of the code bug): every blob `generateBlobs` emits does sit
on a soil cell, but its `stepsSinceMeal` field is absent (`none`), not `0`:
the pushed record is the bare `{x, y}`. -/
theorem C1_generateBlobs_lack_meal_counter (grid : Terrain) (σ : ℕ → ℚ) :
    ((generateBlobs grid σ).all (fun b => decide (b.stepsSinceMeal = none))) = true ∧
    ((generateBlobs grid σ).all
      (fun b => decide (grid (b.x, b.y) = some TerrainKind.soil))) = true := by
  obtain ⟨hb1, _, _, _⟩ :=
    sample_props grid σ initialBlobCount TerrainKind.soil 10000 0 []
      (by intro p hp; simp at hp) List.nodup_nil (by simp)
  constructor
  · rw [List.all_eq_true]
    intro b hb
    exact decide_eq_true (generateBlobs_none grid σ b hb)
  · rw [List.all_eq_true]
    intro b hb
    simp only [generateBlobs, List.mem_map] at hb
    obtain ⟨p, hp, rfl⟩ := hb
    exact decide_eq_true (hb1 p hp)

/-! ## Terrain transition lemmas -/

/-- When a neighbor is in range and not yet assigned, the expansion body
assigns it the `transition` result and bumps the draw counter for soil and
sand parents. -/
theorem expandDir_assign (n : ℕ) (σ : ℕ → ℚ) (cur : FCell) (d : Pos) (st : GenState)
    (hin : inRange n (cur.x + d.1, cur.y + d.2))
    (hun : st.grid (cur.x + d.1, cur.y + d.2) = none) :
    expandDir n σ cur d st =
      assignCell
        { st with k := match cur.type with | TerrainKind.water => st.k | _ => st.k + 1 }
        (cur.x + d.1, cur.y + d.2)
        (transition cur.type cur.chain (σ st.k)).1
        (transition cur.type cur.chain (σ st.k)).2 := by
  simp only [expandDir]
  rw [if_neg (not_not_intro hin), if_neg (not_not_intro hun)]

theorem assignCell_grid_self (st : GenState) (p : Pos) (t : TerrainKind) (c : ℕ) :
    (assignCell st p t c).grid p = some t := by
  simp [assignCell]

theorem assignCell_chain_self (st : GenState) (p : Pos) (t : TerrainKind) (c : ℕ) :
    (assignCell st p t c).chainGrid p = c := by
  simp [assignCell]

/-- C6: expanding an unassigned in-range neighbor of a soil parent with
chain `c` yields a soil child with chain `c + 1` exactly when the drawn
random value is below `max(100 - (c - 1) * 0.5, 0) / 100`, and otherwise a
sand child with chain `1`; for a sand parent the threshold is
`max(100 - (c - 1) * 5, 0) / 100`, with a sand child of chain `c + 1` on
success and a water child of chain `1` otherwise. -/
theorem C6_soil_sand_transition_thresholds (n : ℕ) (σ : ℕ → ℚ) (cur : FCell) (d : Pos)
    (st : GenState)
    (hin : inRange n (cur.x + d.1, cur.y + d.2))
    (hun : st.grid (cur.x + d.1, cur.y + d.2) = none) :
    (cur.type = TerrainKind.soil →
      ((σ st.k < max (100 - ((cur.chain : ℚ) - 1) * 0.5) 0 / 100 →
        (expandDir n σ cur d st).grid (cur.x + d.1, cur.y + d.2) = some TerrainKind.soil ∧
        (expandDir n σ cur d st).chainGrid (cur.x + d.1, cur.y + d.2) = cur.chain + 1) ∧
      (¬ σ st.k < max (100 - ((cur.chain : ℚ) - 1) * 0.5) 0 / 100 →
        (expandDir n σ cur d st).grid (cur.x + d.1, cur.y + d.2) = some TerrainKind.sand ∧
        (expandDir n σ cur d st).chainGrid (cur.x + d.1, cur.y + d.2) = 1))) ∧
    (cur.type = TerrainKind.sand →
      ((σ st.k < max (100 - ((cur.chain : ℚ) - 1) * 5) 0 / 100 →
        (expandDir n σ cur d st).grid (cur.x + d.1, cur.y + d.2) = some TerrainKind.sand ∧
        (expandDir n σ cur d st).chainGrid (cur.x + d.1, cur.y + d.2) = cur.chain + 1) ∧
      (¬ σ st.k < max (100 - ((cur.chain : ℚ) - 1) * 5) 0 / 100 →
        (expandDir n σ cur d st).grid (cur.x + d.1, cur.y + d.2) = some TerrainKind.water ∧
        (expandDir n σ cur d st).chainGrid (cur.x + d.1, cur.y + d.2) = 1))) := by
  rw [expandDir_assign n σ cur d st hin hun]
  constructor
  · intro ht
    rw [ht]
    constructor
    · intro hr
      rw [show transition TerrainKind.soil cur.chain (σ st.k)
            = (TerrainKind.soil, cur.chain + 1) from if_pos hr]
      exact ⟨assignCell_grid_self _ _ _ _, assignCell_chain_self _ _ _ _⟩
    · intro hr
      rw [show transition TerrainKind.soil cur.chain (σ st.k)
            = (TerrainKind.sand, 1) from if_neg hr]
      exact ⟨assignCell_grid_self _ _ _ _, assignCell_chain_self _ _ _ _⟩
  · intro ht
    rw [ht]
    constructor
    · intro hr
      rw [show transition TerrainKind.sand cur.chain (σ st.k)
            = (TerrainKind.sand, cur.chain + 1) from if_pos hr]
      exact ⟨assignCell_grid_self _ _ _ _, assignCell_chain_self _ _ _ _⟩
    · intro hr
      rw [show transition TerrainKind.sand cur.chain (σ st.k)
            = (TerrainKind.water, 1) from if_neg hr]
      exact ⟨assignCell_grid_self _ _ _ _, assignCell_chain_self _ _ _ _⟩

theorem C6_soil_sand_transition_thresholds_witness :
    inRange 3 ((1 : ℤ) + 1, (1 : ℤ) + 0) ∧
    ((⟨fun _ => none, fun _ => 0, [], directions0, 0⟩ : GenState).grid
      ((1 : ℤ) + 1, (1 : ℤ) + 0) = none) ∧
    (((⟨1, 1, TerrainKind.soil, 1⟩ : FCell).type = TerrainKind.soil →
      (((fun _ => 0 : ℕ → ℚ) 0 < max (100 - (((1 : ℕ) : ℚ) - 1) * 0.5) 0 / 100 →
        (expandDir 3 (fun _ => 0) ⟨1, 1, TerrainKind.soil, 1⟩ (1, 0)
            ⟨fun _ => none, fun _ => 0, [], directions0, 0⟩).grid ((1 : ℤ) + 1, (1 : ℤ) + 0)
          = some TerrainKind.soil ∧
        (expandDir 3 (fun _ => 0) ⟨1, 1, TerrainKind.soil, 1⟩ (1, 0)
            ⟨fun _ => none, fun _ => 0, [], directions0, 0⟩).chainGrid ((1 : ℤ) + 1, (1 : ℤ) + 0)
          = 1 + 1) ∧
      (¬ ((fun _ => 0 : ℕ → ℚ) 0) < max (100 - (((1 : ℕ) : ℚ) - 1) * 0.5) 0 / 100 →
        (expandDir 3 (fun _ => 0) ⟨1, 1, TerrainKind.soil, 1⟩ (1, 0)
            ⟨fun _ => none, fun _ => 0, [], directions0, 0⟩).grid ((1 : ℤ) + 1, (1 : ℤ) + 0)
          = some TerrainKind.sand ∧
        (expandDir 3 (fun _ => 0) ⟨1, 1, TerrainKind.soil, 1⟩ (1, 0)
            ⟨fun _ => none, fun _ => 0, [], directions0, 0⟩).chainGrid ((1 : ℤ) + 1, (1 : ℤ) + 0)
          = 1))) ∧
    ((⟨1, 1, TerrainKind.soil, 1⟩ : FCell).type = TerrainKind.sand →
      (((fun _ => 0 : ℕ → ℚ) 0 < max (100 - (((1 : ℕ) : ℚ) - 1) * 5) 0 / 100 →
        (expandDir 3 (fun _ => 0) ⟨1, 1, TerrainKind.soil, 1⟩ (1, 0)
            ⟨fun _ => none, fun _ => 0, [], directions0, 0⟩).grid ((1 : ℤ) + 1, (1 : ℤ) + 0)
          = some TerrainKind.sand ∧
        (expandDir 3 (fun _ => 0) ⟨1, 1, TerrainKind.soil, 1⟩ (1, 0)
            ⟨fun _ => none, fun _ => 0, [], directions0, 0⟩).chainGrid ((1 : ℤ) + 1, (1 : ℤ) + 0)
          = 1 + 1) ∧
      (¬ ((fun _ => 0 : ℕ → ℚ) 0) < max (100 - (((1 : ℕ) : ℚ) - 1) * 5) 0 / 100 →
        (expandDir 3 (fun _ => 0) ⟨1, 1, TerrainKind.soil, 1⟩ (1, 0)
            ⟨fun _ => none, fun _ => 0, [], directions0, 0⟩).grid ((1 : ℤ) + 1, (1 : ℤ) + 0)
          = some TerrainKind.water ∧
        (expandDir 3 (fun _ => 0) ⟨1, 1, TerrainKind.soil, 1⟩ (1, 0)
            ⟨fun _ => none, fun _ => 0, [], directions0, 0⟩).chainGrid ((1 : ℤ) + 1, (1 : ℤ) + 0)
          = 1)))) :=
  ⟨by decide, rfl,
    C6_soil_sand_transition_thresholds 3 (fun _ => 0) ⟨1, 1, TerrainKind.soil, 1⟩ (1, 0)
      ⟨fun _ => none, fun _ => 0, [], directions0, 0⟩ (by decide) rfl⟩

/-- C7: expanding any unassigned in-range neighbor of a water parent yields
water with chain `parent chain + 1` whatever the random draw, and iterating
the transition rule from water never leaves water (no soil or sand ever
appears downstream of a water cell). -/
theorem C7_water_absorbing (n : ℕ) (σ : ℕ → ℚ) (cur : FCell) (d : Pos) (st : GenState)
    (hin : inRange n (cur.x + d.1, cur.y + d.2))
    (hun : st.grid (cur.x + d.1, cur.y + d.2) = none)
    (hw : cur.type = TerrainKind.water) :
    (expandDir n σ cur d st).grid (cur.x + d.1, cur.y + d.2) = some TerrainKind.water ∧
    (expandDir n σ cur d st).chainGrid (cur.x + d.1, cur.y + d.2) = cur.chain + 1 ∧
    ∀ (rs : List ℚ) (c : ℕ),
      rs.foldl (fun tc r => transition tc.1 tc.2 r) (TerrainKind.water, c)
        = (TerrainKind.water, c + rs.length) := by
  have hfold : ∀ (rs : List ℚ) (c : ℕ),
      rs.foldl (fun tc r => transition tc.1 tc.2 r) (TerrainKind.water, c)
        = (TerrainKind.water, c + rs.length) := by
    intro rs
    induction rs with
    | nil => intro c; simp
    | cons r rs ih =>
      intro c
      have : transition TerrainKind.water c r = (TerrainKind.water, c + 1) := rfl
      simp only [List.foldl_cons, this, ih, List.length_cons]
      rw [Prod.mk.injEq]
      exact ⟨rfl, by omega⟩
  rw [expandDir_assign n σ cur d st hin hun, hw]
  have : transition TerrainKind.water cur.chain (σ st.k)
      = (TerrainKind.water, cur.chain + 1) := rfl
  rw [this]
  exact ⟨assignCell_grid_self _ _ _ _, assignCell_chain_self _ _ _ _, hfold⟩

theorem C7_water_absorbing_witness :
    inRange 3 ((1 : ℤ) + 1, (1 : ℤ) + 0) ∧
    ((⟨fun _ => none, fun _ => 0, [], directions0, 0⟩ : GenState).grid
      ((1 : ℤ) + 1, (1 : ℤ) + 0) = none) ∧
    ((⟨1, 1, TerrainKind.water, 4⟩ : FCell).type = TerrainKind.water) ∧
    ((expandDir 3 (fun _ => 0) ⟨1, 1, TerrainKind.water, 4⟩ (1, 0)
        ⟨fun _ => none, fun _ => 0, [], directions0, 0⟩).grid ((1 : ℤ) + 1, (1 : ℤ) + 0)
      = some TerrainKind.water ∧
    (expandDir 3 (fun _ => 0) ⟨1, 1, TerrainKind.water, 4⟩ (1, 0)
        ⟨fun _ => none, fun _ => 0, [], directions0, 0⟩).chainGrid ((1 : ℤ) + 1, (1 : ℤ) + 0)
      = 4 + 1 ∧
    ∀ (rs : List ℚ) (c : ℕ),
      rs.foldl (fun tc r => transition tc.1 tc.2 r) (TerrainKind.water, c)
        = (TerrainKind.water, c + rs.length)) :=
  ⟨by decide, rfl, rfl,
    C7_water_absorbing 3 (fun _ => 0) ⟨1, 1, TerrainKind.water, 4⟩ (1, 0)
      ⟨fun _ => none, fun _ => 0, [], directions0, 0⟩ (by decide) rfl rfl⟩

/-! ## Flood-fill termination -/

theorem mem_cells {n : ℕ} {p : Pos} : p ∈ cells n ↔ inRange n p := by
  unfold cells inRange
  rw [Finset.mem_product, Finset.mem_Icc, Finset.mem_Icc]
  omega

theorem unassigned_k (n : ℕ) (st : GenState) (k2 : ℕ) :
    unassigned n { st with k := k2 } = unassigned n st := rfl

theorem unassigned_assignCell (n : ℕ) (st : GenState) (p : Pos) (t : TerrainKind) (c : ℕ)
    (hin : inRange n p) (hun : st.grid p = none) :
    unassigned n (assignCell st p t c) = unassigned n st - 1 ∧ 1 ≤ unassigned n st := by
  have hpmem : p ∈ (cells n).filter (fun q => st.grid q = none) := by
    rw [Finset.mem_filter]
    exact ⟨mem_cells.mpr hin, hun⟩
  have hset : (cells n).filter (fun q => (assignCell st p t c).grid q = none)
      = ((cells n).filter (fun q => st.grid q = none)).erase p := by
    ext q
    simp only [Finset.mem_filter, Finset.mem_erase, assignCell]
    constructor
    · rintro ⟨hq, hg⟩
      by_cases hqp : q = p
      · rw [if_pos hqp] at hg
        cases hg
      · rw [if_neg hqp] at hg
        exact ⟨hqp, hq, hg⟩
    · rintro ⟨hqp, hq, hg⟩
      refine ⟨hq, ?_⟩
      rw [if_neg hqp]
      exact hg
  constructor
  · unfold unassigned
    rw [hset, Finset.card_erase_of_mem hpmem]
  · exact Finset.card_pos.mpr ⟨p, hpmem⟩

theorem expandDir_measure (n : ℕ) (σ : ℕ → ℚ) (cur : FCell) (d : Pos) (st : GenState) :
    measureG n (expandDir n σ cur d st) ≤ measureG n st := by
  simp only [expandDir]
  split
  · exact le_rfl
  split
  · exact le_rfl
  next h1 h2 =>
    have hin : inRange n (cur.x + d.1, cur.y + d.2) := not_not.mp h1
    have hun : st.grid (cur.x + d.1, cur.y + d.2) = none := not_not.mp h2
    obtain ⟨he, hge⟩ := unassigned_assignCell n
      { st with k := match cur.type with | TerrainKind.water => st.k | _ => st.k + 1 }
      (cur.x + d.1, cur.y + d.2)
      (transition cur.type cur.chain (σ st.k)).1
      (transition cur.type cur.chain (σ st.k)).2 hin hun
    have hflen : (assignCell
        { st with k := match cur.type with | TerrainKind.water => st.k | _ => st.k + 1 }
        (cur.x + d.1, cur.y + d.2)
        (transition cur.type cur.chain (σ st.k)).1
        (transition cur.type cur.chain (σ st.k)).2).frontier.length
        = st.frontier.length + 1 := by
      simp [assignCell]
    unfold measureG
    rw [hflen, he, unassigned_k]
    rw [unassigned_k] at hge
    omega

theorem expandAll_measure (n : ℕ) (σ : ℕ → ℚ) (cur : FCell) :
    ∀ (ds : List Pos) (st : GenState),
      measureG n (expandAll n σ cur ds st) ≤ measureG n st := by
  intro ds
  induction ds with
  | nil => intro st; exact le_rfl
  | cons d ds ih =>
    intro st
    exact (ih (expandDir n σ cur d st)).trans (expandDir_measure n σ cur d st)

theorem genStep_eq (n : ℕ) (σ : ℕ → ℚ) (st : GenState) :
    genStep n σ st =
      expandAll n σ (st.frontier.getD (natDraw (σ st.k) st.frontier.length) default)
        (shuffleAux σ (st.dirs.length - 1) (st.k + 1) st.dirs).1
        { st with
          frontier := st.frontier.eraseIdx (natDraw (σ st.k) st.frontier.length)
          dirs := (shuffleAux σ (st.dirs.length - 1) (st.k + 1) st.dirs).1
          k := (shuffleAux σ (st.dirs.length - 1) (st.k + 1) st.dirs).2 } := rfl

theorem genStep_measure (n : ℕ) (σ : ℕ → ℚ) (st : GenState) (hσ : Valid01 σ)
    (hne : st.frontier ≠ []) :
    measureG n (genStep n σ st) < measureG n st := by
  have hlen : 0 < st.frontier.length := List.length_pos.mpr hne
  have hidx : natDraw (σ st.k) st.frontier.length < st.frontier.length :=
    natDraw_lt (hσ st.k).1 (hσ st.k).2 hlen
  rw [genStep_eq]
  refine lt_of_le_of_lt (expandAll_measure n σ _ _ _) ?_
  unfold measureG
  have hug : unassigned n
      { st with
        frontier := st.frontier.eraseIdx (natDraw (σ st.k) st.frontier.length)
        dirs := (shuffleAux σ (st.dirs.length - 1) (st.k + 1) st.dirs).1
        k := (shuffleAux σ (st.dirs.length - 1) (st.k + 1) st.dirs).2 }
      = unassigned n st := rfl
  rw [hug]
  have : (st.frontier.eraseIdx (natDraw (σ st.k) st.frontier.length)).length
      = st.frontier.length - 1 := by
    rw [List.length_eraseIdx, if_pos hidx]
  simp only [this]
  omega

theorem genLoop_total (n : ℕ) (σ : ℕ → ℚ) (hσ : Valid01 σ) :
    ∀ (fuel : ℕ) (st : GenState), measureG n st ≤ fuel → (genLoop n σ fuel st).isSome := by
  intro fuel
  induction fuel with
  | zero =>
    intro st h
    have hlen : st.frontier.length = 0 := by
      unfold measureG at h
      omega
    have hemp : st.frontier = [] := List.length_eq_zero.mp hlen
    simp [genLoop, hemp]
  | succ m ih =>
    intro st h
    by_cases hemp : st.frontier = []
    · simp [genLoop, hemp]
    · have hstep := genStep_measure n σ st hσ hemp
      have : (genLoop n σ m (genStep n σ st)).isSome := ih _ (by omega)
      simpa [genLoop, hemp] using this

/-! ## The shuffle is a permutation -/

theorem get_cons_set_perm {α : Type} :
    ∀ (t : List α) (m : ℕ) (hm : m < t.length) (a : α),
      ((t.get ⟨m, hm⟩) :: t.set m a).Perm (a :: t) := by
  intro t
  induction t with
  | nil => intro m hm a; simp at hm
  | cons b t ih =>
    intro m hm a
    cases m with
    | zero =>
      simp only [List.get, List.set_cons_zero]
      exact List.Perm.swap a b t
    | succ m =>
      simp only [List.get_cons_succ, List.set_cons_succ]
      refine (List.Perm.swap b _ _).trans ?_
      refine (List.Perm.cons b (ih m (by simpa using hm) a)).trans ?_
      exact List.Perm.swap a b t

theorem set_set_perm {α : Type} :
    ∀ (l : List α) (i j : ℕ) (hi : i < l.length) (hj : j < l.length),
      ((l.set i (l.get ⟨j, hj⟩)).set j (l.get ⟨i, hi⟩)).Perm l := by
  intro l
  induction l with
  | nil => intro i j hi hj; simp at hi
  | cons a t ih =>
    intro i j hi hj
    cases i with
    | zero =>
      cases j with
      | zero => simp
      | succ m =>
        simp only [List.get, List.set_cons_zero, List.set_cons_succ]
        exact get_cons_set_perm t m (by simpa using hj) a
    | succ k =>
      cases j with
      | zero =>
        simp only [List.get, List.set_cons_zero, List.set_cons_succ]
        exact get_cons_set_perm t k (by simpa using hi) a
      | succ m =>
        simp only [List.get_cons_succ, List.set_cons_succ]
        exact List.Perm.cons a (ih k m (by simpa using hi) (by simpa using hj))

theorem swapL_perm {α : Type} (l : List α) (i j : ℕ) : (swapL l i j).Perm l := by
  unfold swapL
  rcases h1 : l[i]? with _ | a
  · exact List.Perm.refl l
  · rcases h2 : l[j]? with _ | b
    · exact List.Perm.refl l
    · obtain ⟨hi, ha⟩ := List.getElem?_eq_some.mp h1
      obtain ⟨hj, hb⟩ := List.getElem?_eq_some.mp h2
      have ha' : a = l.get ⟨i, hi⟩ := ha.symm
      have hb' : b = l.get ⟨j, hj⟩ := hb.symm
      rw [ha', hb']
      exact set_set_perm l i j hi hj

theorem shuffleAux_perm (σ : ℕ → ℚ) :
    ∀ (i k : ℕ) (l : List Pos), (shuffleAux σ i k l).1.Perm l := by
  intro i
  induction i with
  | zero => intro k l; exact List.Perm.refl l
  | succ m ih =>
    intro k l
    simp only [shuffleAux]
    exact (ih (k + 1) _).trans (swapL_perm l (m + 1) (natDraw (σ k) (m + 2)))

/-! ## Frontier and grid structure of the expansion -/

theorem mem_eraseIdx_or_get {α : Type} :
    ∀ (l : List α) (i : ℕ) (hi : i < l.length) (c : α),
      c ∈ l → c ∈ l.eraseIdx i ∨ c = l.get ⟨i, hi⟩ := by
  intro l
  induction l with
  | nil => intro i hi c hc; simp at hc
  | cons a t ih =>
    intro i hi c hc
    cases i with
    | zero =>
      rcases List.mem_cons.mp hc with rfl | hct
      · exact Or.inr rfl
      · exact Or.inl (by simpa using hct)
    | succ m =>
      rcases List.mem_cons.mp hc with rfl | hct
      · exact Or.inl (List.mem_cons_self _ _)
      · rcases ih m (by simpa using hi) c hct with h | h
        · exact Or.inl (List.mem_cons_of_mem a h)
        · exact Or.inr (by simpa using h)

theorem expandDir_grid_mono (n : ℕ) (σ : ℕ → ℚ) (cur : FCell) (d : Pos) (st : GenState)
    (q : Pos) (h : st.grid q ≠ none) : (expandDir n σ cur d st).grid q ≠ none := by
  simp only [expandDir]
  split
  · exact h
  split
  · exact h
  · simp only [assignCell]
    split
    · simp
    · exact h

theorem expandDir_frontier_mono (n : ℕ) (σ : ℕ → ℚ) (cur : FCell) (d : Pos) (st : GenState)
    (c : FCell) (h : c ∈ st.frontier) : c ∈ (expandDir n σ cur d st).frontier := by
  simp only [expandDir]
  split
  · exact h
  split
  · exact h
  · simp only [assignCell]
    exact List.mem_append_left _ h

theorem expandDir_dirs (n : ℕ) (σ : ℕ → ℚ) (cur : FCell) (d : Pos) (st : GenState) :
    (expandDir n σ cur d st).dirs = st.dirs := by
  simp only [expandDir]
  split
  · rfl
  split
  · rfl
  · rfl

theorem expandDir_new_frontier (n : ℕ) (σ : ℕ → ℚ) (cur : FCell) (d : Pos) (st : GenState)
    (q : Pos) (h : (expandDir n σ cur d st).grid q ≠ none) :
    st.grid q ≠ none ∨ ∃ c ∈ (expandDir n σ cur d st).frontier, ((c.x, c.y) : Pos) = q := by
  revert h
  simp only [expandDir]
  split
  · exact fun h => Or.inl h
  split
  · exact fun h => Or.inl h
  · intro h
    by_cases hq : q = (cur.x + d.1, cur.y + d.2)
    · right
      refine ⟨⟨cur.x + d.1, cur.y + d.2,
        (transition cur.type cur.chain (σ st.k)).1,
        (transition cur.type cur.chain (σ st.k)).2⟩, ?_, by rw [hq]⟩
      simp [assignCell]
    · left
      simp only [assignCell] at h
      rw [if_neg hq] at h
      exact h

theorem expandDir_covers (n : ℕ) (σ : ℕ → ℚ) (cur : FCell) (d : Pos) (st : GenState)
    (hin : inRange n (cur.x + d.1, cur.y + d.2)) :
    (expandDir n σ cur d st).grid (cur.x + d.1, cur.y + d.2) ≠ none := by
  simp only [expandDir]
  split
  next hcon => exact absurd hin hcon
  split
  next hcon => exact hcon
  · simp [assignCell]

theorem expandAll_grid_mono (n : ℕ) (σ : ℕ → ℚ) (cur : FCell) :
    ∀ (ds : List Pos) (st : GenState) (q : Pos),
      st.grid q ≠ none → (expandAll n σ cur ds st).grid q ≠ none := by
  intro ds
  induction ds with
  | nil => intro st q h; exact h
  | cons d ds ih =>
    intro st q h
    exact ih _ q (expandDir_grid_mono n σ cur d st q h)

theorem expandAll_frontier_mono (n : ℕ) (σ : ℕ → ℚ) (cur : FCell) :
    ∀ (ds : List Pos) (st : GenState) (c : FCell),
      c ∈ st.frontier → c ∈ (expandAll n σ cur ds st).frontier := by
  intro ds
  induction ds with
  | nil => intro st c h; exact h
  | cons d ds ih =>
    intro st c h
    exact ih _ c (expandDir_frontier_mono n σ cur d st c h)

theorem expandAll_dirs (n : ℕ) (σ : ℕ → ℚ) (cur : FCell) :
    ∀ (ds : List Pos) (st : GenState), (expandAll n σ cur ds st).dirs = st.dirs := by
  intro ds
  induction ds with
  | nil => intro st; rfl
  | cons d ds ih =>
    intro st
    rw [show expandAll n σ cur (d :: ds) st = expandAll n σ cur ds (expandDir n σ cur d st)
      from rfl]
    rw [ih, expandDir_dirs]

theorem expandAll_new_frontier (n : ℕ) (σ : ℕ → ℚ) (cur : FCell) :
    ∀ (ds : List Pos) (st : GenState) (q : Pos),
      (expandAll n σ cur ds st).grid q ≠ none →
      st.grid q ≠ none ∨ ∃ c ∈ (expandAll n σ cur ds st).frontier, ((c.x, c.y) : Pos) = q := by
  intro ds
  induction ds with
  | nil => intro st q h; exact Or.inl h
  | cons d ds ih =>
    intro st q h
    rcases ih (expandDir n σ cur d st) q h with h1 | h1
    · rcases expandDir_new_frontier n σ cur d st q h1 with h2 | ⟨c, hc, hcq⟩
      · exact Or.inl h2
      · exact Or.inr ⟨c, expandAll_frontier_mono n σ cur ds _ c hc, hcq⟩
    · exact Or.inr h1

theorem expandAll_covers (n : ℕ) (σ : ℕ → ℚ) (cur : FCell) :
    ∀ (ds : List Pos) (st : GenState) (d : Pos),
      d ∈ ds → inRange n (cur.x + d.1, cur.y + d.2) →
      (expandAll n σ cur ds st).grid (cur.x + d.1, cur.y + d.2) ≠ none := by
  intro ds
  induction ds with
  | nil => intro st d hd; simp at hd
  | cons d0 ds ih =>
    intro st d hd hin
    rcases List.mem_cons.mp hd with rfl | hd'
    · exact expandAll_grid_mono n σ cur ds _ _ (expandDir_covers n σ cur d st hin)
    · exact ih _ d hd' hin

/-! ## The flood-fill invariant is preserved -/

theorem genStep_inv (n : ℕ) (σ : ℕ → ℚ) (st : GenState) (hσ : Valid01 σ)
    (hne : st.frontier ≠ []) (hInv : InvGen n st) : InvGen n (genStep n σ st) := by
  obtain ⟨hdirs, hcenter, hmain⟩ := hInv
  have hlen : 0 < st.frontier.length := List.length_pos.mpr hne
  have hidx : natDraw (σ st.k) st.frontier.length < st.frontier.length :=
    natDraw_lt (hσ st.k).1 (hσ st.k).2 hlen
  rw [genStep_eq]
  have hcur : st.frontier.getD (natDraw (σ st.k) st.frontier.length) default
      = st.frontier.get ⟨natDraw (σ st.k) st.frontier.length, hidx⟩ := by
    rw [List.getD_eq_getElem _ _ hidx]
    rfl
  have hshdirs : ∀ d ∈ directions0,
      d ∈ (shuffleAux σ (st.dirs.length - 1) (st.k + 1) st.dirs).1 := by
    intro d hd
    exact ((shuffleAux_perm σ (st.dirs.length - 1) (st.k + 1) st.dirs).mem_iff).mpr (hdirs d hd)
  refine ⟨?_, ?_, ?_⟩
  · intro d hd
    rw [expandAll_dirs]
    exact hshdirs d hd
  · exact expandAll_grid_mono n σ _ _ _ _ hcenter
  · intro p hpin hpg
    rcases expandAll_new_frontier n σ _ _ _ p hpg with hold | hnew
    · have holdst : st.grid p ≠ none := hold
      rcases hmain p hpin holdst with ⟨c, hcf, hcp⟩ | hclosed
      · by_cases hpc :
          p = (((st.frontier.getD (natDraw (σ st.k) st.frontier.length) default).x,
            (st.frontier.getD (natDraw (σ st.k) st.frontier.length) default).y) : Pos)
        · right
          intro d hd hdin
          have hq : (p.1 + d.1, p.2 + d.2)
              = ((st.frontier.getD (natDraw (σ st.k) st.frontier.length) default).x + d.1,
                (st.frontier.getD (natDraw (σ st.k) st.frontier.length) default).y + d.2) := by
            rw [hpc]
          rw [hq]
          apply expandAll_covers n σ _ _ _ d (hshdirs d hd)
          rw [← hq]
          exact hdin
        · left
          rcases mem_eraseIdx_or_get st.frontier (natDraw (σ st.k) st.frontier.length)
              hidx c hcf with hc1 | hc2
          · exact ⟨c, expandAll_frontier_mono n σ _ _ _ c hc1, hcp⟩
          · exfalso
            apply hpc
            rw [← hcp, hc2, hcur]
      · right
        intro d hd hdin
        exact expandAll_grid_mono n σ _ _ _ _ (hclosed d hd hdin)
    · exact Or.inl hnew

theorem genLoop_inv (n : ℕ) (σ : ℕ → ℚ) (hσ : Valid01 σ) :
    ∀ (fuel : ℕ) (st st' : GenState), genLoop n σ fuel st = some st' → InvGen n st →
      InvGen n st' ∧ st'.frontier = [] := by
  intro fuel
  induction fuel with
  | zero =>
    intro st st' hsome hinv
    by_cases hemp : st.frontier = []
    · simp only [genLoop, if_pos hemp] at hsome
      cases hsome
      exact ⟨hinv, hemp⟩
    · simp [genLoop, hemp] at hsome
  | succ m ih =>
    intro st st' hsome hinv
    by_cases hemp : st.frontier = []
    · simp only [genLoop, if_pos hemp] at hsome
      cases hsome
      exact ⟨hinv, hemp⟩
    · simp only [genLoop, if_neg hemp] at hsome
      exact ih _ st' hsome (genStep_inv n σ st hσ hemp hinv)

theorem initState_inv (n : ℕ) : InvGen n (initState n) := by
  refine ⟨?_, ?_, ?_⟩
  · intro d hd
    exact hd
  · simp [initState]
  · intro p hpin hpg
    by_cases hpc : p = centerCell n
    · left
      refine ⟨⟨(centerCell n).1, (centerCell n).2, TerrainKind.soil, 1⟩, ?_, ?_⟩
      · simp [initState]
      · rw [hpc]
    · exfalso
      apply hpg
      simp only [initState]
      rw [if_neg hpc]

/-! ## Connectivity of the grid under the eight directions -/

theorem stepToward_bounds (a b m : ℤ) (h1 : 0 ≤ a) (h2 : a < m) (h3 : 0 ≤ b) (h4 : b < m) :
    0 ≤ stepToward a b ∧ stepToward a b < m := by
  unfold stepToward
  split
  · omega
  split <;> omega

theorem stepToward_natAbs (a b : ℤ) :
    (stepToward a b - b).natAbs = (a - b).natAbs - 1 := by
  unfold stepToward
  split
  · omega
  split <;> omega

theorem stepToward_d (a b : ℤ) :
    (a - stepToward a b = -1 ∧ a ≠ b) ∨ (a - stepToward a b = 1 ∧ a ≠ b) ∨
    (a - stepToward a b = 0 ∧ a = b) := by
  unfold stepToward
  split
  · omega
  split <;> omega

/-- Any in-range cell is reachable from the seed cell by in-range steps along
the eight directions: a set of cells containing the seed and closed under
in-range neighbors contains every in-range cell. -/
theorem connected (n : ℕ) (hn : 1 ≤ n) (A : Pos → Prop) (hc : A (centerCell n))
    (hstep : ∀ p : Pos, inRange n p → A p → ∀ d ∈ directions0,
      inRange n (p.1 + d.1, p.2 + d.2) → A (p.1 + d.1, p.2 + d.2)) :
    ∀ p : Pos, inRange n p → A p := by
  have hcin : inRange n (centerCell n) := by
    have hdiv : n / 2 < n := Nat.div_lt_self (by omega) (by omega)
    simp only [inRange, centerCell]
    refine ⟨Int.natCast_nonneg _, ?_, Int.natCast_nonneg _, ?_⟩ <;> exact_mod_cast hdiv
  suffices H : ∀ (k : ℕ) (p : Pos), inRange n p →
      (p.1 - (centerCell n).1).natAbs ⊔ (p.2 - (centerCell n).2).natAbs ≤ k → A p by
    intro p hp
    exact H _ p hp le_rfl
  intro k
  induction k with
  | zero =>
    intro p hp hk
    have hk' := Nat.max_le.mp hk
    have h1 : p.1 = (centerCell n).1 := by omega
    have h2 : p.2 = (centerCell n).2 := by omega
    have hpe : p = centerCell n := Prod.ext h1 h2
    rwa [hpe]
  | succ k ih =>
    intro p hp hk
    by_cases h0 : (p.1 - (centerCell n).1).natAbs ⊔ (p.2 - (centerCell n).2).natAbs ≤ k
    · exact ih p hp h0
    · have hne : ¬(p.1 = (centerCell n).1 ∧ p.2 = (centerCell n).2) := by
        rintro ⟨e1, e2⟩
        apply h0
        rw [e1, e2]
        simp
      have hqin : inRange n
          ((stepToward p.1 (centerCell n).1, stepToward p.2 (centerCell n).2) : Pos) := by
        obtain ⟨ha1, ha2, ha3, ha4⟩ := hp
        obtain ⟨hb1, hb2, hb3, hb4⟩ := hcin
        obtain ⟨hs1, hs2⟩ := stepToward_bounds p.1 (centerCell n).1 n ha1 ha2 hb1 hb2
        obtain ⟨hs3, hs4⟩ := stepToward_bounds p.2 (centerCell n).2 n ha3 ha4 hb3 hb4
        exact ⟨hs1, hs2, hs3, hs4⟩
      have hqdist :
          ((stepToward p.1 (centerCell n).1 - (centerCell n).1).natAbs
            ⊔ (stepToward p.2 (centerCell n).2 - (centerCell n).2).natAbs) ≤ k := by
        have e1 := stepToward_natAbs p.1 (centerCell n).1
        have e2 := stepToward_natAbs p.2 (centerCell n).2
        have hk' := Nat.max_le.mp hk
        rw [Nat.max_le]
        constructor <;> omega
      have hAq := ih _ hqin hqdist
      have hdmem : ((p.1 - stepToward p.1 (centerCell n).1,
          p.2 - stepToward p.2 (centerCell n).2) : Pos) ∈ directions0 := by
        rcases stepToward_d p.1 (centerCell n).1 with ⟨e1, hx⟩ | ⟨e1, hx⟩ | ⟨e1, hx⟩ <;>
          rcases stepToward_d p.2 (centerCell n).2 with ⟨e2, hy⟩ | ⟨e2, hy⟩ | ⟨e2, hy⟩ <;>
          first
            | (rw [e1, e2]; decide)
            | exact absurd ⟨hx, hy⟩ hne
      have hpe : ((stepToward p.1 (centerCell n).1 + (p.1 - stepToward p.1 (centerCell n).1),
          stepToward p.2 (centerCell n).2 + (p.2 - stepToward p.2 (centerCell n).2)) : Pos)
          = p := by
        refine Prod.ext ?_ ?_ <;> dsimp <;> ring
      have := hstep _ hqin hAq _ hdmem (by rw [hpe]; exact hp)
      rwa [hpe] at this

/-! ## Full coverage -/

theorem initState_measure (n : ℕ) : measureG n (initState n) ≤ 2 * n * n + 1 := by
  have h2 : unassigned n (initState n) ≤ n * n := by
    unfold unassigned
    calc ((cells n).filter (fun p => (initState n).grid p = none)).card
        ≤ (cells n).card := Finset.card_filter_le _ _
      _ = n * n := by
          unfold cells
          rw [Finset.card_product, Int.card_Icc]
          simp
  have h1 : measureG n (initState n) = 1 + 2 * unassigned n (initState n) := rfl
  have h3 : 2 * n * n = 2 * (n * n) := by ring
  omega

/-- C5: for any grid size at least 1 and any valid random source, the
flood-fill terminates (the fuel `generateGrid` passes is enough, so it
returns `some`) and the resulting grid assigns one of the three terrain
kinds to every in-range cell. -/
theorem C5_generateGrid_terminates_full_coverage (n : ℕ) (σ : ℕ → ℚ)
    (hσ : Valid01 σ) (hn : 1 ≤ n) :
    ∃ g, generateGrid n σ = some g ∧ ∀ p : Pos, inRange n p → ∃ t, g p = some t := by
  have hsome := genLoop_total n σ hσ (2 * n * n + 1) (initState n) (initState_measure n)
  obtain ⟨st', hst'⟩ := Option.isSome_iff_exists.mp hsome
  obtain ⟨hinv', hempty⟩ := genLoop_inv n σ hσ _ _ _ hst' (initState_inv n)
  obtain ⟨_, hcent', hmain'⟩ := hinv'
  refine ⟨st'.grid, ?_, ?_⟩
  · unfold generateGrid
    rw [hst']
    rfl
  · have hstepA : ∀ p : Pos, inRange n p → st'.grid p ≠ none → ∀ d ∈ directions0,
        inRange n (p.1 + d.1, p.2 + d.2) → st'.grid (p.1 + d.1, p.2 + d.2) ≠ none := by
      intro p hpin hpg
      rcases hmain' p hpin hpg with ⟨c, hcf, _⟩ | hcl
      · rw [hempty] at hcf
        simp at hcf
      · exact hcl
    have hall := connected n hn (fun p => st'.grid p ≠ none) hcent' hstepA
    intro p hp
    rcases ho : st'.grid p with _ | t
    · exact absurd ho (hall p hp)
    · exact ⟨t, rfl⟩

theorem C5_generateGrid_terminates_full_coverage_witness :
    Valid01 (fun _ => 0) ∧ 1 ≤ 2 ∧
    ∃ g, generateGrid 2 (fun _ => 0) = some g ∧
      ∀ p : Pos, inRange 2 p → ∃ t, g p = some t :=
  ⟨fun _ => ⟨le_refl 0, by norm_num⟩, by norm_num,
    C5_generateGrid_terminates_full_coverage 2 (fun _ => 0)
      (fun _ => ⟨le_refl 0, by norm_num⟩) (by norm_num)⟩

end BlobGame
